import Mathlib

/-!
Shallow embedding of the Geographic Crosswalk & Aggregation Engine of the
covidcast-indicators repository, together with the parts of
`changehc/delphi_changehc/update_sensor.py` that the verified properties
concern.  Numeric measure values are rationals; a pandas NaN cell is
modelled as `none : Option ℚ`.  Geographic codes are strings, dates are
natural numbers (day indices).

The GeoMapper implementation itself (`delphi_utils/geomap.py`) is not part
of the source tree that was given, only its test suite; the definitions for
it are therefore modelled from the specification and carry a doc comment
saying so.  Everything taken from `update_sensor.py` is translated from
that file directly.
-/

/-- Crosswalk entry: a weighted mapping from a source geographic code to a
target geographic code. -/
structure CrosswalkEntry where
  source : String
  target : String
  weight : ℚ
deriving DecidableEq, Repr

/-- Measure row: one geographic code, one date, one (possibly missing)
additive measure value.  `none` models a pandas NaN cell. -/
structure MeasureRow where
  geo : String
  date : ℕ
  value : Option ℚ
deriving DecidableEq, Repr

/-- Multiplication of a weight by a possibly-missing value: weight times
missing is missing (NaN semantics), never zero. -/
def scaleOpt (w : ℚ) : Option ℚ → Option ℚ
  | none => none
  | some v => some (w * v)

/-- Addition of possibly-missing values: a missing operand makes the result
missing (NaN-propagating sum). -/
def addOpt : Option ℚ → Option ℚ → Option ℚ
  | some a, some b => some (a + b)
  | _, _ => none

/-- NaN-propagating sum of a list of possibly-missing values. -/
def optSum (l : List (Option ℚ)) : Option ℚ :=
  l.foldr addOpt (some 0)

/-- Sum of the entries of a crosswalk restricted to one source code. -/
def weightSumFor (cw : List CrosswalkEntry) (s : String) : ℚ :=
  ((cw.filter fun e => e.source = s).map (fun e => e.weight)).sum

/-- Modelled from the spec: step 1 and 2 of the re-aggregation algorithm
(§4.3) of `geomap.py`, which is not under the given source tree.  Joining
one input row against the crosswalk produces one row per matching entry
(fan-out), with every additive value scaled by the entry weight.  A row
whose source code has no entry fans out to nothing (it is dropped). -/
def fanOut (cw : List CrosswalkEntry) (r : MeasureRow) : List MeasureRow :=
  (cw.filter fun e => e.source = r.geo).map fun e =>
    { geo := e.target, date := r.date, value := scaleOpt e.weight r.value }

/-- Grouping key of a measure row: the pair (geographic code, date). -/
def rowKey (r : MeasureRow) : String × ℕ :=
  (r.geo, r.date)

/-- Modelled from the spec: step 3 of the re-aggregation algorithm (§4.3)
of `geomap.py`, which is not under the given source tree.  Rows are grouped
by (target code, date) and additive values are summed with NaN
propagation. -/
def groupSum (rows : List MeasureRow) : List MeasureRow :=
  ((rows.map rowKey).dedup).map fun k =>
    { geo := k.1, date := k.2,
      value := optSum ((rows.filter fun r => rowKey r = k).map fun r => r.value) }

/-- Modelled from the spec: the full `aggregate` contract (§4.3) of
`geomap.py`, which is not under the given source tree: crosswalk fan-out,
weight scaling, then grouped summation. -/
def aggregate (cw : List CrosswalkEntry) (rows : List MeasureRow) : List MeasureRow :=
  groupSum (rows.flatMap (fanOut cw))

/-- Total of a measure column over a list of rows, reading a missing value
as 0; the conservation statements only use it under a no-missing
hypothesis. -/
def sumQ (rows : List MeasureRow) : ℚ :=
  (rows.map fun r => r.value.getD 0).sum

/-- Modelled from the spec: `resolve(code, from, to)` (§4.2) of
`geomap.py`, which is not under the given source tree: single-valued lookup
through a many-to-one crosswalk, returning `none` (not an error) when no
mapping exists. -/
def resolve (cw : List CrosswalkEntry) (code : String) : Option String :=
  (cw.find? fun e => e.source = code).map fun e => e.target

/-- Modelled from the spec: the conversion step that attaches the resolved
target code to every row (as `convert_fips_to_state_id` and friends do in
`geomap.py`, which is not under the given source tree); rows with an
unresolvable code are retained with a null target value. -/
def convertStep (cw : List CrosswalkEntry) (rows : List MeasureRow) :
    List (MeasureRow × Option String) :=
  rows.map fun r => (r, resolve cw r.geo)

/-- Error taxonomy of the crosswalk table store (§7). -/
inductive CrosswalkError where
  | dataUnavailable
  | crosswalkIntegrityError
deriving DecidableEq, Repr

/-- Source codes occurring in a crosswalk table, each once. -/
def sourcesOf (cw : List CrosswalkEntry) : List String :=
  (cw.map fun e => e.source).dedup

/-- Tolerance of the load-time weight normalization check: 1e-6. -/
def weightTol : ℚ := 1 / 1000000

/-- Decidable form of the §4.1 invariant: every source code's outgoing
weights sum to 1 within `weightTol`. -/
def weightCheckOk (cw : List CrosswalkEntry) : Bool :=
  (sourcesOf cw).all fun s => decide (|weightSumFor cw s - 1| ≤ weightTol)

/-- Modelled from the spec: the load-time integrity check of a many-to-many
crosswalk table (§4.1) of `geomap.py`, which is not under the given source
tree (its tests exercise `load_zip_fips_cross`).  A table whose weights are
normalized loads unchanged; any other table fails with
`CrosswalkIntegrityError`. -/
def loadManyToManyCross (raw : List CrosswalkEntry) :
    Except CrosswalkError (List CrosswalkEntry) :=
  if weightCheckOk raw then Except.ok raw
  else Except.error CrosswalkError.crosswalkIntegrityError

/-- County-level row with the two measure columns (`num`, `den`) carried by
the changehc pipeline; used by the megacounty merger, whose reindexing
contract guarantees no missing cells. -/
structure CRow where
  fips : String
  date : ℕ
  num : ℚ
  den : ℚ
deriving DecidableEq, Repr

/-- State prefix of a 5-digit county code: its first two characters, a pure
string slice (§4.2 `to_state_code`). -/
def stateOf (fips : String) : String :=
  fips.take 2

/-- Reserved megacounty code of a state: state prefix followed by "000". -/
def megaFips (st : String) : String :=
  st ++ "000"

/-- Membership of a date in the trailing window of length `w` ending at
`d`, i.e. the interval [d - w + 1, d], phrased without truncated
subtraction. -/
def inWindow (w d dd : ℕ) : Prop :=
  dd ≤ d ∧ d < dd + w

instance (w d dd : ℕ) : Decidable (inWindow w d dd) := by
  unfold inWindow; infer_instance

/-- Modelled from the spec: trailing average of the denominator column over
the window of length `w` ending at date `d`, for county `c` (§4.4 step 1 of
`geomap.py`, which is not under the given source tree); dates missing from
the series count as zero, so the divisor is the window length. -/
def trailingAvg (rows : List CRow) (w : ℕ) (c : String) (d : ℕ) : ℚ :=
  ((rows.filter fun r => r.fips = c ∧ inWindow w d r.date).map fun r => r.den).sum / (w : ℚ)

/-- Kept rows of the megacounty merge: counties whose trailing average
denominator is at or above the threshold (boundary inclusive, §4.4
step 2). -/
def keptRows (rows : List CRow) (t : ℚ) (w : ℕ) : List CRow :=
  rows.filter fun r => t ≤ trailingAvg rows w r.fips r.date

/-- Merged rows of the megacounty merge: counties whose trailing average
denominator is strictly below the threshold (§4.4 step 2). -/
def mergedRows (rows : List CRow) (t : ℚ) (w : ℕ) : List CRow :=
  rows.filter fun r => ¬ t ≤ trailingAvg rows w r.fips r.date

/-- Grouping key of a merged row: (state prefix, date). -/
def stateKey (r : CRow) : String × ℕ :=
  (stateOf r.fips, r.date)

/-- Synthetic residual rows: one row per (state, date) that has at least
one merged county, summing the additive measures of the merged counties of
that state and date (§4.4 step 3). -/
def megaRows (rows : List CRow) (t : ℚ) (w : ℕ) : List CRow :=
  (((mergedRows rows t w).map stateKey).dedup).map fun k =>
    { fips := megaFips k.1, date := k.2,
      num := (((mergedRows rows t w).filter fun r => stateKey r = k).map fun r => r.num).sum,
      den := (((mergedRows rows t w).filter fun r => stateKey r = k).map fun r => r.den).sum }

/-- Modelled from the spec: the megacounty merge (§4.4) of
`fips_to_megacounty` in `geomap.py`, which is not under the given source
tree: kept county rows unchanged, plus one synthetic residual row per state
and date covering the merged counties. -/
def megaMerge (rows : List CRow) (t : ℚ) (w : ℕ) : List CRow :=
  keptRows rows t w ++ megaRows rows t w

/-- Rows of a county table carrying a given date. -/
def atDate (d : ℕ) (rows : List CRow) : List CRow :=
  rows.filter fun r => r.date = d

/-- Total of the `num` column of a county table. -/
def sumNum (rows : List CRow) : ℚ :=
  (rows.map fun r => r.num).sum

/-- Total of the `den` column of a county table. -/
def sumDen (rows : List CRow) : ℚ :=
  (rows.map fun r => r.den).sum

/-- Row of the dataframe flowing through `geo_reindex` in
`update_sensor.py`: geographic code, date, and the `num`/`den` measure
columns, either of which may be NaN before the fill step. -/
structure GRow where
  geo : String
  date : ℕ
  num : Option ℚ
  den : Option ℚ
deriving DecidableEq, Repr

/-- Distinct geographic codes of a table, as computed by
`pd.unique(data_frame[geo])` in `geo_reindex` (each code once). -/
def uniqueGeoIds (df : List GRow) : List String :=
  (df.map fun r => r.geo).dedup

/-- Lookup of the row indexed by a (geo, date) pair after
`data_frame.set_index([geo, date])` in `geo_reindex`; the reindex step
requires this index to be unique, so the first match is the row. -/
def lookupRow (df : List GRow) (g : String) (d : ℕ) : Option GRow :=
  df.find? fun r => r.geo = g ∧ r.date = d

/-- Translation of `geo_reindex` lines 192-201 of `update_sensor.py`:
`data_frame.reindex(MultiIndex.from_product((unique_geo_ids, fit_dates)),
fill_value=0)` followed by `data_frame.fillna(0, inplace=True)`.  The
result has one row per (geo id, fit date) pair: this builder gives the
row of one pair - a pair present in the input keeps its values with NaN
cells replaced by 0, a missing pair is filled with the value 0 in every
measure column. -/
def reindexRowAt (df : List GRow) (g : String) (d : ℕ) : GRow :=
  match lookupRow df g d with
  | some r => { geo := g, date := d, num := some (r.num.getD 0), den := some (r.den.getD 0) }
  | none => { geo := g, date := d, num := some 0, den := some 0 }

/-- Translation of `geo_reindex` lines 192-201 of `update_sensor.py`, the
reindex proper: one row per (geo id, fit date) pair, built by
`reindexRowAt`. -/
def reindexFill (df : List GRow) (fitDates : List ℕ) : List GRow :=
  (uniqueGeoIds df).flatMap fun g => fitDates.map fun d => reindexRowAt df g d

/-- Reading of a possibly-NaN cell as a rational with NaN as 0; used to
hand `GRow` tables to the megacounty merger model. -/
def toCRow (r : GRow) : CRow :=
  { fips := r.geo, date := r.date, num := r.num.getD 0, den := r.den.getD 0 }

/-- Embedding of a county row back into the possibly-NaN row shape. -/
def toGRow (r : CRow) : GRow :=
  { geo := r.fips, date := r.date, num := some r.num, den := some r.den }

/-- Modelled from the spec: `GeoMapper.fips_to_megacounty` on the changehc
table shape; `geomap.py` is not under the given source tree.  The merge of
§4.4 is applied to the table with NaN cells read as zero. -/
def fipsToMegacountyModel (t : ℚ) (w : ℕ) (data : List GRow) : List GRow :=
  (megaMerge (data.map toCRow) t w).map toGRow

/-- Grouping key of a changehc table row: the pair (geo code, date). -/
def groupKeyG (r : GRow) : String × ℕ :=
  (r.geo, r.date)

/-- Modelled from the spec: `GeoMapper.replace_geocode` on the changehc
table shape; `geomap.py` is not under the given source tree.  Each row's
code is resolved through the many-to-one crosswalk (weight 1.0); rows whose
code does not resolve are dropped, and the result is grouped by (target
code, date) with NaN-propagating sums of the measure columns (§4.3). -/
def replaceGeocodeModel (cw : List CrosswalkEntry) (data : List GRow) : List GRow :=
  let joined := data.filterMap fun r => (resolve cw r.geo).map fun tgt =>
    { geo := tgt, date := r.date, num := r.num, den := r.den : GRow }
  ((joined.map groupKeyG).dedup).map fun k =>
    { geo := k.1, date := k.2,
      num := optSum ((joined.filter fun r => groupKeyG r = k).map fun r => r.num),
      den := optSum ((joined.filter fun r => groupKeyG r = k).map fun r => r.den) }

/-- Reference data of the GeoMapper used by `geo_reindex`: the many-to-one
crosswalk backing `replace_geocode` for each target system, and the list of
valid codes per system backing `get_geo_values`.  Modelled from the spec,
as `geomap.py` is not under the given source tree. -/
structure GeoMapperModel where
  crosswalkFor : String → List CrosswalkEntry
  geoValues : String → List String

/-- Geography strings accepted by `geo_reindex`
(`update_sensor.py` line 177). -/
def validGeos : List String :=
  ["county", "state", "msa", "hrr", "nation", "hhs"]

/-- Conversion branch of `geo_reindex` (lines 181-190 of
`update_sensor.py`): `fips_to_megacounty` for county, `replace_geocode`
otherwise. -/
def convertGeo (gm : GeoMapperModel) (geo : String) (minDen : ℚ) (w : ℕ)
    (data : List GRow) : List GRow :=
  if geo = "county" then fipsToMegacountyModel minDen w data
  else replaceGeocodeModel (gm.crosswalkFor geo) data

/-- Possible outcomes of `geo_reindex`: the Python function returns the
boolean `False` for an unrecognized geography, lets its internal
`assert` raise when the sanity bound fails, and returns a dataframe
otherwise. -/
inductive GeoReindexResult where
  | invalidGeo
  | assertionFailed
  | frame (df : List GRow)
deriving DecidableEq, Repr

/-- Translation of `CHCSensorUpdator.geo_reindex` (lines 174-202 of
`update_sensor.py`): reject unrecognized geographies with the value
`False`, convert, check the sanity bound
`len(multiindex) <= len(get_geo_values(geo)) * len(fit_dates)`, then
reindex against the product of the converted table's geo ids and the fit
dates with zero filling. -/
def geoReindex (gm : GeoMapperModel) (geo : String) (minDen : ℚ) (w : ℕ)
    (data : List GRow) (fitDates : List ℕ) : GeoReindexResult :=
  if geo ∈ validGeos then
    let df := convertGeo gm geo minDen w data
    if (uniqueGeoIds df).length * fitDates.length ≤
        (gm.geoValues geo).length * fitDates.length then
      GeoReindexResult.frame (reindexFill df fitDates)
    else GeoReindexResult.assertionFailed
  else GeoReindexResult.invalidGeo

/-- Caller-owned input table of `update_sensor`: the list of index column
names set by the caller (e.g. ["fips", "date"]) together with the row
content.  `reset_index` moves the index levels back into ordinary columns,
leaving the default integer index (an empty index column list here) while
preserving the row content. -/
structure InputTable where
  index : List String
  rows : List GRow
deriving DecidableEq, Repr

/-- Effect of `df.reset_index()` on the index structure of a table: the
index levels become ordinary columns and the index becomes the default
one. -/
def resetIndex (t : InputTable) : InputTable :=
  { index := [], rows := t.rows }

/-- State of the caller's `data` argument after `update_sensor` returns:
line 219 of `update_sensor.py` executes `data.reset_index(inplace=True)`,
an in-place mutation of the caller-owned table; no later statement of
`update_sensor` writes to `data` again. -/
def updateSensorDataAfter (t : InputTable) : InputTable :=
  resetIndex t

/-- Association list produced by a process pool run: tasks are submitted in
order and finish in the order given by `sched` (a permutation of the task
indices); each finished task records (its submission index, its result). -/
def poolLog {α β : Type} (f : β → α) (tasks : List β) (sched : List ℕ) : List (ℕ × α) :=
  sched.filterMap fun i => (tasks[i]?).map fun t => (i, f t)

/-- Retrieval of pool results in submission order, as
`[proc.get() for proc in pool_results]` does on line 247 of
`update_sensor.py`: the i-th retrieved value is the result recorded for
submission index i, whatever the completion order was. -/
def gatherResults {α : Type} (n : ℕ) (log : List (ℕ × α)) : List α :=
  (List.range n).filterMap fun i => (log.find? fun p => p.1 = i).map fun p => p.2

/-- Parallel branch of `update_sensor` (lines 233-251): run every
per-geography task on the pool under completion order `sched` and gather
the results by submission order. -/
def poolRun {α β : Type} (f : β → α) (tasks : List β) (sched : List ℕ) : List α :=
  gatherResults tasks.length (poolLog f tasks sched)

/-- Sequential branch of `update_sensor` (lines 224-232): run every
per-geography task in turn, appending each result. -/
def serialRun {α β : Type} (f : β → α) (tasks : List β) : List α :=
  tasks.map f

/-- Per-geography groups of the reindexed table, as iterated by
`data_frame.groupby(level=0)` in both branches of `update_sensor`: one
group per geo id, holding the rows of that geo id. -/
def groupByGeo (df : List GRow) : List (String × List GRow) :=
  (uniqueGeoIds df).map fun g => (g, df.filter fun r => r.geo = g)

/-- Output rows of `update_sensor` computed sequentially
(`parallel=False`): the per-group results (sensor fitting plus the
`final_sensor_idxs` restriction, abstracted as `fit`) concatenated in group
order. -/
def updateSensorSerial {α : Type} (fit : String × List GRow → List α)
    (df : List GRow) : List α :=
  (serialRun fit (groupByGeo df)).flatten

/-- Output rows of `update_sensor` computed on a pool (`parallel=True`)
whose tasks complete in the order `sched`: per-group results gathered by
submission order, concatenated in group order. -/
def updateSensorParallel {α : Type} (fit : String × List GRow → List α)
    (df : List GRow) (sched : List ℕ) : List α :=
  (poolRun fit (groupByGeo df) sched).flatten

/-- Splitting a sum over a list into the part satisfying a predicate and
the part refuting it. -/
theorem sum_map_filter_split {α : Type} (l : List α) (p : α → Bool) (f : α → ℚ) :
    ((l.filter p).map f).sum + ((l.filter fun a => !(p a)).map f).sum = (l.map f).sum := by
  induction l with
  | nil => simp
  | cons a t ih =>
    cases h : p a with
    | true => simp [List.filter_cons, h, ← ih]; ring
    | false => simp [List.filter_cons, h, ← ih]; ring

/-- Partition of a sum over a list into the sums of its fibers under a
grouping key, one fiber for each key of a duplicate-free covering list. -/
theorem sum_fibers {α κ : Type} [DecidableEq κ] (K : List κ) (hK : K.Nodup)
    (l : List α) (key : α → κ) (f : α → ℚ) (hcov : ∀ a ∈ l, key a ∈ K) :
    (K.map fun k => ((l.filter fun a => key a = k).map f).sum).sum = (l.map f).sum := by
  induction K generalizing l with
  | nil =>
    cases l with
    | nil => simp
    | cons a t => exact absurd (hcov a (by simp)) (by simp)
  | cons k K ih =>
    have hknotin : k ∉ K := by
      intro hmem; exact (List.nodup_cons.mp hK).1 hmem
    have hKnd : K.Nodup := (List.nodup_cons.mp hK).2
    have hfib : ∀ k2 ∈ K, (l.filter fun a => key a = k2)
        = ((l.filter fun a => !(decide (key a = k))).filter fun a => key a = k2) := by
      intro k2 hk2
      have hk2ne : k2 ≠ k := fun hh => hknotin (hh ▸ hk2)
      rw [List.filter_filter]
      apply List.filter_congr
      intro a _
      by_cases h : key a = k2
      · have hne : ¬ key a = k := fun hh => hk2ne (h.symm.trans hh)
        simp [h, hne, hk2ne]
      · simp [h]
    have hcov2 : ∀ a ∈ (l.filter fun a => !(decide (key a = k))), key a ∈ K := by
      intro a ha
      rcases List.mem_filter.mp ha with ⟨hal, hne⟩
      have := hcov a hal
      simp only [List.mem_cons] at this
      rcases this with h | h
      · exfalso
        simp [h] at hne
      · exact h
    calc (((k :: K)).map fun k2 => ((l.filter fun a => key a = k2).map f).sum).sum
        = ((l.filter fun a => key a = k).map f).sum
          + (K.map fun k2 => ((l.filter fun a => key a = k2).map f).sum).sum := by
          rw [List.map_cons, List.sum_cons]
      _ = ((l.filter fun a => key a = k).map f).sum
          + (K.map fun k2 => (((l.filter fun a => !(decide (key a = k))).filter
              fun a => key a = k2).map f).sum).sum := by
          congr 1
          exact congrArg List.sum (List.map_congr_left fun k2 hk2 => by rw [hfib k2 hk2])
      _ = ((l.filter fun a => key a = k).map f).sum
          + (((l.filter fun a => !(decide (key a = k))).map f)).sum := by
          rw [ih hKnd _ hcov2]
      _ = (l.map f).sum := by
          exact sum_map_filter_split l (fun a => decide (key a = k)) f

/-- NaN-propagating sum of a list without missing entries: the plain sum. -/
theorem optSum_all_some (l : List (Option ℚ)) (h : ∀ v ∈ l, v.isSome) :
    optSum l = some ((l.map fun v => v.getD 0).sum) := by
  induction l with
  | nil => simp [optSum]
  | cons a t ih =>
    rcases Option.isSome_iff_exists.mp (h a (by simp)) with ⟨x, hx⟩
    have ht := ih fun v hv => h v (by simp [hv])
    simp only [optSum, List.foldr_cons] at *
    rw [ht, hx]
    simp [addOpt]

/-- NaN-propagating sum of a list containing a missing entry: missing. -/
theorem optSum_of_mem_none (l : List (Option ℚ)) (h : none ∈ l) :
    optSum l = none := by
  induction l with
  | nil => simp at h
  | cons a t ih =>
    simp only [List.mem_cons] at h
    rcases h with h | h
    · subst h; simp [optSum, addOpt]
    · simp only [optSum, List.foldr_cons]
      rw [show t.foldr addOpt (some 0) = optSum t from rfl, ih h]
      cases a <;> simp [addOpt]

/-- Sum of a measure column over a concatenation of fan-outs. -/
theorem sumQ_flatMap (l : List MeasureRow) (f : MeasureRow → List MeasureRow) :
    sumQ (l.flatMap f) = (l.map fun a => sumQ (f a)).sum := by
  induction l with
  | nil => simp [sumQ]
  | cons a t ih =>
    simp only [List.flatMap_cons, List.map_cons, List.sum_cons, ← ih]
    simp [sumQ]

/-- Grouped summation conserves the total of a measure column when no
input value is missing. -/
theorem sumQ_groupSum (l : List MeasureRow) (h : ∀ r ∈ l, r.value.isSome) :
    sumQ (groupSum l) = sumQ l := by
  have hterm : ∀ k ∈ (l.map rowKey).dedup,
      (optSum ((l.filter fun r => rowKey r = k).map fun r => r.value)).getD 0
        = ((l.filter fun r => rowKey r = k).map fun r => r.value.getD 0).sum := by
    intro k _
    have hall : ∀ v ∈ (l.filter fun r => rowKey r = k).map fun r => r.value, v.isSome := by
      intro v hv
      rcases List.mem_map.mp hv with ⟨r, hr, hrv⟩
      exact hrv ▸ h r (List.mem_of_mem_filter hr)
    rw [optSum_all_some _ hall]
    simp [List.map_map, Function.comp_def]
  have hcov : ∀ r ∈ l, rowKey r ∈ (l.map rowKey).dedup := by
    intro r hr
    exact List.mem_dedup.mpr (List.mem_map.mpr ⟨r, hr, rfl⟩)
  calc sumQ (groupSum l)
      = (((l.map rowKey).dedup).map fun k =>
          (optSum ((l.filter fun r => rowKey r = k).map fun r => r.value)).getD 0).sum := by
        simp [sumQ, groupSum, List.map_map, Function.comp_def]
    _ = (((l.map rowKey).dedup).map fun k =>
          ((l.filter fun r => rowKey r = k).map fun r => r.value.getD 0).sum).sum := by
        exact congrArg List.sum (List.map_congr_left hterm)
    _ = sumQ l := by
        exact sum_fibers _ (List.nodup_dedup _) l rowKey _ hcov

/-- Fan-out of a row with a present value totals the row's value scaled by
the summed crosswalk weights of its source code. -/
theorem sumQ_fanOut (cw : List CrosswalkEntry) (r : MeasureRow) (v : ℚ)
    (hv : r.value = some v) :
    sumQ (fanOut cw r) = weightSumFor cw r.geo * v := by
  simp only [sumQ, fanOut, weightSumFor, List.map_map, Function.comp, hv, scaleOpt]
  rw [← List.sum_map_mul_right]
  exact congrArg List.sum (List.map_congr_left fun e _ => by simp [scaleOpt])

/-- C1 (amended): for every additive measure column and every set of input
rows with no missing values, each of whose source codes has crosswalk
entries whose weights sum to 1, aggregating to a coarser target resolution
(identity, many-to-one, or many-to-many) yields an output whose column sum
equals the input column sum: fan-out by crosswalk weights redistributes
mass but never creates or loses it. -/
theorem aggregate_conserves_sum (cw : List CrosswalkEntry) (rows : List MeasureRow)
    (hsome : ∀ r ∈ rows, r.value.isSome)
    (hw : ∀ r ∈ rows, weightSumFor cw r.geo = 1) :
    sumQ (aggregate cw rows) = sumQ rows := by
  have hfansome : ∀ s ∈ rows.flatMap (fanOut cw), s.value.isSome := by
    intro s hs
    rcases List.mem_flatMap.mp hs with ⟨r, hr, hsr⟩
    rcases List.mem_map.mp hsr with ⟨e, _, hes⟩
    rcases Option.isSome_iff_exists.mp (hsome r hr) with ⟨v, hv⟩
    rw [← hes]
    simp [scaleOpt, hv]
  calc sumQ (aggregate cw rows)
      = sumQ (rows.flatMap (fanOut cw)) := sumQ_groupSum _ hfansome
    _ = (rows.map fun r => sumQ (fanOut cw r)).sum := sumQ_flatMap _ _
    _ = (rows.map fun r => r.value.getD 0).sum := by
        apply congrArg List.sum
        apply List.map_congr_left
        intro r hr
        rcases Option.isSome_iff_exists.mp (hsome r hr) with ⟨v, hv⟩
        rw [sumQ_fanOut cw r v hv, hw r hr, hv]
        simp
    _ = sumQ rows := rfl

/-- C1 counterexample: with the many-to-one crosswalk mapping only the
code "a" (to "X" with weight 1), the input rows for codes "a" and "b" have
no missing values, yet aggregation drops the unmapped row for "b" and the
output total 1 differs from the input total 6, refuting the claim as
stated for an arbitrary set of input rows. -/
theorem aggregate_conserves_sum_cx :
    ¬ (sumQ (aggregate [⟨"a", "X", 1⟩] [⟨"a", 0, some 1⟩, ⟨"b", 0, some 5⟩])
      = sumQ [⟨"a", 0, some 1⟩, ⟨"b", 0, some 5⟩]) := by
  simp +decide [aggregate, groupSum, fanOut, rowKey, optSum, addOpt, scaleOpt, sumQ,
    List.filter_cons, List.filter_nil, List.dedup_cons_of_mem, List.dedup_cons_of_not_mem]

/-- C1 witness: the amended conservation theorem applied to a concrete
many-to-many crosswalk (code "a" splitting evenly over "X" and "Y", code
"b" mapping wholly to "X") and concrete fully-observed rows. -/
theorem aggregate_conserves_sum_witness :
    sumQ (aggregate [⟨"a", "X", (1:ℚ)/2⟩, ⟨"a", "Y", (1:ℚ)/2⟩, ⟨"b", "X", 1⟩]
        [⟨"a", 0, some 4⟩, ⟨"b", 0, some 6⟩, ⟨"a", 1, some 2⟩])
      = sumQ [⟨"a", 0, some 4⟩, ⟨"b", 0, some 6⟩, ⟨"a", 1, some 2⟩] := by
  apply aggregate_conserves_sum
  · intro r hr
    fin_cases hr <;> simp
  · intro r hr
    fin_cases hr <;> simp +decide [weightSumFor, List.filter_cons, List.filter_nil] <;> norm_num

/-- C3: for every source code in a loaded many-to-many crosswalk table,
the sum of the weights of its outgoing entries equals 1.0 within tolerance
1e-6; a table violating this fails at load time with
CrosswalkIntegrityError. -/
theorem load_cross_weight_normalization (raw : List CrosswalkEntry) :
    (∀ out, loadManyToManyCross raw = Except.ok out →
      ∀ s ∈ sourcesOf raw, |weightSumFor raw s - 1| ≤ weightTol) ∧
    ((∃ s ∈ sourcesOf raw, ¬ |weightSumFor raw s - 1| ≤ weightTol) →
      loadManyToManyCross raw = Except.error CrosswalkError.crosswalkIntegrityError) := by
  constructor
  · intro out hok s hs
    by_cases h : weightCheckOk raw
    · exact of_decide_eq_true (List.all_eq_true.mp h s hs)
    · rw [loadManyToManyCross, if_neg h] at hok
      exact absurd hok (by simp)
  · rintro ⟨s, hs, hbad⟩
    have h : ¬ weightCheckOk raw = true := by
      intro h
      exact hbad (of_decide_eq_true (List.all_eq_true.mp h s hs))
    rw [loadManyToManyCross, if_neg h]

/-- C3 witness: the load theorem applied to a concrete normalized table
(source "z1" splitting 1/2 and 1/2) and to a concrete violating table
(source "z2" with a single outgoing weight 1/2). -/
theorem load_cross_weight_normalization_witness :
    (∀ s ∈ sourcesOf [(⟨"z1", "c1", (1:ℚ)/2⟩ : CrosswalkEntry), ⟨"z1", "c2", (1:ℚ)/2⟩],
      |weightSumFor [(⟨"z1", "c1", (1:ℚ)/2⟩ : CrosswalkEntry), ⟨"z1", "c2", (1:ℚ)/2⟩] s - 1|
        ≤ weightTol) ∧
    loadManyToManyCross [⟨"z2", "c1", (1:ℚ)/2⟩]
      = Except.error CrosswalkError.crosswalkIntegrityError := by
  constructor
  · refine (load_cross_weight_normalization _).1
      [(⟨"z1", "c1", (1:ℚ)/2⟩ : CrosswalkEntry), ⟨"z1", "c2", (1:ℚ)/2⟩] ?_
    have hchk : weightCheckOk [(⟨"z1", "c1", (1:ℚ)/2⟩ : CrosswalkEntry), ⟨"z1", "c2", (1:ℚ)/2⟩]
        = true := by
      simp +decide [weightCheckOk, sourcesOf, weightSumFor, weightTol,
        List.filter_cons, List.filter_nil, List.dedup_cons_of_mem, List.dedup_cons_of_not_mem]
      norm_num
    rw [loadManyToManyCross, if_pos hchk]
  · refine (load_cross_weight_normalization _).2 ⟨"z2", by simp +decide [sourcesOf], ?_⟩
    simp +decide [weightSumFor, weightTol, List.filter_cons, List.filter_nil]
    rw [abs_sub_comm, abs_of_pos] <;> norm_num

/-- C4: in aggregation, every input row whose measure value is missing
propagates as missing after weighting (weight times missing is missing),
and every output group fed by that row is reported missing, never as a
real zero contribution. -/
theorem aggregation_nan_propagation (cw : List CrosswalkEntry) (rows : List MeasureRow)
    (r : MeasureRow) (hr : r ∈ rows) (hmiss : r.value = none) :
    (∀ s ∈ fanOut cw r, s.value = none) ∧
    (∀ o ∈ aggregate cw rows, (∃ e ∈ cw, e.source = r.geo ∧ e.target = o.geo) →
      o.date = r.date → o.value = none) := by
  constructor
  · intro s hs
    rcases List.mem_map.mp hs with ⟨e, _, hes⟩
    rw [← hes]
    simp [scaleOpt, hmiss]
  · intro o ho hex hodate
    obtain ⟨e, he, hesrc, hetgt⟩ := hex
    obtain ⟨k, hkmem, rfl⟩ := List.mem_map.mp ho
    have h1 : e.target = k.1 := by simpa using hetgt
    have h2 : k.2 = r.date := by simpa using hodate
    have hs : (⟨e.target, r.date, none⟩ : MeasureRow) ∈ rows.flatMap (fanOut cw) := by
      apply List.mem_flatMap.mpr
      refine ⟨r, hr, ?_⟩
      apply List.mem_map.mpr
      exact ⟨e, List.mem_filter.mpr ⟨he, by simp [hesrc]⟩, by simp [scaleOpt, hmiss]⟩
    have hkey : rowKey (⟨e.target, r.date, none⟩ : MeasureRow) = k := by
      simp [rowKey, h1, ← h2]
    have hfib : (⟨e.target, r.date, none⟩ : MeasureRow)
        ∈ (rows.flatMap (fanOut cw)).filter fun s => rowKey s = k :=
      List.mem_filter.mpr ⟨hs, by simp [hkey]⟩
    have hnone : (none : Option ℚ)
        ∈ ((rows.flatMap (fanOut cw)).filter fun s => rowKey s = k).map fun s => s.value :=
      List.mem_map.mpr ⟨_, hfib, rfl⟩
    exact optSum_of_mem_none _ hnone

/-- C4 witness: the propagation theorem applied to the crosswalk mapping
"a" to "X" and rows where the first "a" row is missing: its fan-out is
missing and the output group ("X", date 0) is missing. -/
theorem aggregation_nan_propagation_witness :
    (∀ s ∈ fanOut [⟨"a", "X", 1⟩] (⟨"a", 0, none⟩ : MeasureRow), s.value = none) ∧
    (∀ o ∈ aggregate [⟨"a", "X", 1⟩] [(⟨"a", 0, none⟩ : MeasureRow), ⟨"a", 0, some 3⟩],
      (∃ e ∈ [(⟨"a", "X", 1⟩ : CrosswalkEntry)], e.source = "a" ∧ e.target = o.geo) →
      o.date = 0 → o.value = none) :=
  aggregation_nan_propagation [⟨"a", "X", 1⟩] [⟨"a", 0, none⟩, ⟨"a", 0, some 3⟩]
    ⟨"a", 0, none⟩ (by simp) rfl

/-- C7: for every code with no entry in the relevant many-to-one
crosswalk, resolve returns a missing result rather than an error, and at
the conversion step every row carrying such a code is retained with a null
target value. -/
theorem resolve_unmapped_is_null (cw : List CrosswalkEntry) (code : String)
    (rows : List MeasureRow) (h : ∀ e ∈ cw, e.source ≠ code) :
    resolve cw code = none ∧
    (convertStep cw rows).length = rows.length ∧
    (∀ r ∈ rows, r.geo = code → (r, (none : Option String)) ∈ convertStep cw rows) := by
  have hfind : (cw.find? fun e => e.source = code) = none :=
    List.find?_eq_none.mpr fun e he => by simpa using h e he
  refine ⟨by simp [resolve, hfind], by simp [convertStep], ?_⟩
  intro r hr hgeo
  have hres : resolve cw r.geo = none := by
    rw [hgeo]
    simp [resolve, hfind]
  exact List.mem_map.mpr ⟨r, hr, by rw [hres]⟩

/-- C7 witness: the resolve theorem applied to the state crosswalk entry
list containing only source "01", the unmapped code "98", and one row
carrying that code. -/
theorem resolve_unmapped_is_null_witness :
    resolve [⟨"01", "AL", 1⟩] "98" = none ∧
    (convertStep [⟨"01", "AL", 1⟩] [(⟨"98", 0, some 1⟩ : MeasureRow)]).length = 1 ∧
    (∀ r ∈ [(⟨"98", 0, some 1⟩ : MeasureRow)], r.geo = "98" →
      (r, (none : Option String)) ∈ convertStep [⟨"01", "AL", 1⟩] [(⟨"98", 0, some 1⟩ : MeasureRow)]) :=
  resolve_unmapped_is_null [⟨"01", "AL", 1⟩] "98" [⟨"98", 0, some 1⟩] (by simp +decide)

/-- Restriction to one date commutes with the kept/merged split, so the
kept and merged rows of a date partition that date's input rows. -/
theorem sum_kept_merged_split (rows : List CRow) (t : ℚ) (w : ℕ) (d : ℕ) (f : CRow → ℚ) :
    ((atDate d (keptRows rows t w)).map f).sum
      + ((atDate d (mergedRows rows t w)).map f).sum = ((atDate d rows).map f).sum := by
  have h1 : atDate d (keptRows rows t w)
      = (atDate d rows).filter fun r => decide (t ≤ trailingAvg rows w r.fips r.date) := by
    simp only [atDate, keptRows, List.filter_filter]
    exact List.filter_congr fun r _ => by rw [Bool.and_comm]
  have h2 : atDate d (mergedRows rows t w)
      = (atDate d rows).filter fun r => !(decide (t ≤ trailingAvg rows w r.fips r.date)) := by
    simp only [atDate, mergedRows, List.filter_filter]
    exact List.filter_congr fun r _ => by rw [decide_not, Bool.and_comm]
  rw [h1, h2]
  exact sum_map_filter_split _ _ f

/-- Measure total of the synthetic residual rows of one date: equal to the
measure total of the merged county rows of that date, for any column
projection that sums fiberwise over the residual construction. -/
theorem sum_megaRows_atDate (rows : List CRow) (t : ℚ) (w : ℕ) (d : ℕ) (f : CRow → ℚ)
    (hproj : ∀ k : String × ℕ,
      f { fips := megaFips k.1, date := k.2,
          num := (((mergedRows rows t w).filter fun r => stateKey r = k).map fun r => r.num).sum,
          den := (((mergedRows rows t w).filter fun r => stateKey r = k).map fun r => r.den).sum }
        = (((mergedRows rows t w).filter fun r => stateKey r = k).map f).sum) :
    ((atDate d (megaRows rows t w)).map f).sum
      = ((atDate d (mergedRows rows t w)).map f).sum := by
  have hfib : ∀ k : String × ℕ, k.2 = d →
      ((mergedRows rows t w).filter fun r => stateKey r = k)
        = ((atDate d (mergedRows rows t w)).filter fun r => stateKey r = k) := by
    intro k hk2
    simp only [atDate, List.filter_filter]
    apply List.filter_congr
    intro r _
    by_cases h : stateKey r = k
    · have hrd : r.date = d := by
        rw [← hk2, ← h]
        rfl
      simp [h, hrd]
    · simp [h]
  have hmap : atDate d (megaRows rows t w)
      = (((((mergedRows rows t w).map stateKey).dedup).filter fun k => decide (k.2 = d)).map
          fun k =>
            ({ fips := megaFips k.1, date := k.2,
               num := (((mergedRows rows t w).filter fun r => stateKey r = k).map
                 fun r => r.num).sum,
               den := (((mergedRows rows t w).filter fun r => stateKey r = k).map
                 fun r => r.den).sum } : CRow)) := by
    simp only [atDate, megaRows, List.filter_map]
    rfl
  rw [hmap, List.map_map]
  have hterm : ∀ k ∈ (((mergedRows rows t w).map stateKey).dedup).filter
      fun k => decide (k.2 = d),
      (f ∘ fun k =>
        ({ fips := megaFips k.1, date := k.2,
           num := (((mergedRows rows t w).filter fun r => stateKey r = k).map
             fun r => r.num).sum,
           den := (((mergedRows rows t w).filter fun r => stateKey r = k).map
             fun r => r.den).sum } : CRow)) k
        = (((atDate d (mergedRows rows t w)).filter fun r => stateKey r = k).map f).sum := by
    intro k hk
    have hk2 : k.2 = d := of_decide_eq_true (List.mem_filter.mp hk).2
    simp only [Function.comp_def]
    rw [hproj k, hfib k hk2]
  rw [List.map_congr_left hterm]
  apply sum_fibers
  · exact List.Nodup.filter _ (List.nodup_dedup _)
  · intro r hr
    rcases List.mem_filter.mp hr with ⟨hrm, hrd⟩
    apply List.mem_filter.mpr
    constructor
    · exact List.mem_dedup.mpr (List.mem_map.mpr ⟨r, hrm, rfl⟩)
    · have : r.date = d := of_decide_eq_true hrd
      simp [stateKey, this]

/-- C2: for every date in the input series, and for any population
threshold and window length, the megacounty merge conserves each measure:
the sum of `num` (and of `den`) over all output rows of the date - kept
county rows plus synthetic merged rows - equals the sum over all input
rows of that date. -/
theorem megacounty_conservation (rows : List CRow) (t : ℚ) (w : ℕ) (d : ℕ) :
    sumNum (atDate d (megaMerge rows t w)) = sumNum (atDate d rows) ∧
    sumDen (atDate d (megaMerge rows t w)) = sumDen (atDate d rows) := by
  constructor
  · calc sumNum (atDate d (megaMerge rows t w))
        = ((atDate d (keptRows rows t w)).map fun r => r.num).sum
          + ((atDate d (megaRows rows t w)).map fun r => r.num).sum := by
          simp [sumNum, megaMerge, atDate, List.filter_append]
      _ = ((atDate d (keptRows rows t w)).map fun r => r.num).sum
          + ((atDate d (mergedRows rows t w)).map fun r => r.num).sum := by
          rw [sum_megaRows_atDate rows t w d _ fun k => rfl]
      _ = sumNum (atDate d rows) := sum_kept_merged_split rows t w d _
  · calc sumDen (atDate d (megaMerge rows t w))
        = ((atDate d (keptRows rows t w)).map fun r => r.den).sum
          + ((atDate d (megaRows rows t w)).map fun r => r.den).sum := by
          simp [sumDen, megaMerge, atDate, List.filter_append]
      _ = ((atDate d (keptRows rows t w)).map fun r => r.den).sum
          + ((atDate d (mergedRows rows t w)).map fun r => r.den).sum := by
          rw [sum_megaRows_atDate rows t w d _ fun k => rfl]
      _ = sumDen (atDate d rows) := sum_kept_merged_split rows t w d _

/-- C5: in the megacounty merge with threshold t and window length w, a
county row whose trailing-window average denominator at its date is at or
above t - including exactly equal to t - is kept and reported at county
granularity in the output, and a county row whose average is strictly
below t is not kept and its state and date carry a synthetic residual
row. -/
theorem megacounty_threshold_boundary (rows : List CRow) (t : ℚ) (w : ℕ) (r : CRow)
    (hr : r ∈ rows) :
    (t ≤ trailingAvg rows w r.fips r.date → r ∈ megaMerge rows t w) ∧
    (trailingAvg rows w r.fips r.date < t →
      r ∉ keptRows rows t w ∧
      ∃ m ∈ megaRows rows t w, m.fips = megaFips (stateOf r.fips) ∧ m.date = r.date) := by
  constructor
  · intro hkeep
    apply List.mem_append_left
    exact List.mem_filter.mpr ⟨hr, by simp [hkeep]⟩
  · intro hlow
    have hnotkeep : ¬ t ≤ trailingAvg rows w r.fips r.date := not_le.mpr hlow
    constructor
    · intro hmem
      exact hnotkeep (of_decide_eq_true (List.mem_filter.mp hmem).2)
    · have hrm : r ∈ mergedRows rows t w :=
        List.mem_filter.mpr ⟨hr, by simp [hnotkeep]⟩
      have hk : stateKey r ∈ ((mergedRows rows t w).map stateKey).dedup :=
        List.mem_dedup.mpr (List.mem_map.mpr ⟨r, hrm, rfl⟩)
      refine ⟨_, List.mem_map.mpr ⟨stateKey r, hk, rfl⟩, rfl, rfl⟩

/-- C5 witness: with threshold 3 and window 2, county "01001" (trailing
average exactly 3 at date 2) is kept in the merge output, and county
"01002" (trailing average 1 at date 2) is not kept and its state and date
carry a residual row. -/
theorem megacounty_threshold_boundary_witness :
    ((⟨"01001", 2, 5, 3⟩ : CRow) ∈ megaMerge
      [⟨"01001", 1, 4, 3⟩, ⟨"01001", 2, 5, 3⟩, ⟨"01002", 1, 6, 1⟩, ⟨"01002", 2, 7, 1⟩] 3 2) ∧
    ((⟨"01002", 2, 7, 1⟩ : CRow) ∉ keptRows
      [⟨"01001", 1, 4, 3⟩, ⟨"01001", 2, 5, 3⟩, ⟨"01002", 1, 6, 1⟩, ⟨"01002", 2, 7, 1⟩] 3 2 ∧
      ∃ m ∈ megaRows
        [⟨"01001", 1, 4, 3⟩, ⟨"01001", 2, 5, 3⟩, ⟨"01002", 1, 6, 1⟩, ⟨"01002", 2, 7, 1⟩] 3 2,
        m.fips = megaFips (stateOf "01002") ∧ m.date = 2) := by
  constructor
  · apply (megacounty_threshold_boundary
      [⟨"01001", 1, 4, 3⟩, ⟨"01001", 2, 5, 3⟩, ⟨"01002", 1, 6, 1⟩, ⟨"01002", 2, 7, 1⟩]
      3 2 ⟨"01001", 2, 5, 3⟩ (by simp +decide)).1
    have havg : trailingAvg
        [⟨"01001", 1, 4, 3⟩, ⟨"01001", 2, 5, 3⟩, ⟨"01002", 1, 6, 1⟩, ⟨"01002", 2, 7, 1⟩]
        2 "01001" 2 = 3 := by
      simp +decide [trailingAvg, inWindow, List.filter_cons, List.filter_nil]
    rw [havg]
  · apply (megacounty_threshold_boundary
      [⟨"01001", 1, 4, 3⟩, ⟨"01001", 2, 5, 3⟩, ⟨"01002", 1, 6, 1⟩, ⟨"01002", 2, 7, 1⟩]
      3 2 ⟨"01002", 2, 7, 1⟩ (by simp +decide)).2
    have havg : trailingAvg
        [⟨"01001", 1, 4, 3⟩, ⟨"01001", 2, 5, 3⟩, ⟨"01002", 1, 6, 1⟩, ⟨"01002", 2, 7, 1⟩]
        2 "01002" 2 = 1 := by
      simp +decide [trailingAvg, inWindow, List.filter_cons, List.filter_nil]
    rw [havg]
    norm_num

/-- Geo code of a reindexed row: the requested geo id, whichever branch of
the lookup fired. -/
theorem reindexRowAt_geo (df : List GRow) (g : String) (d : ℕ) :
    (reindexRowAt df g d).geo = g := by
  unfold reindexRowAt
  cases lookupRow df g d <;> rfl

/-- Date of a reindexed row: the requested fit date. -/
theorem reindexRowAt_date (df : List GRow) (g : String) (d : ℕ) :
    (reindexRowAt df g d).date = d := by
  unfold reindexRowAt
  cases lookupRow df g d <;> rfl

/-- Measure cells of a reindexed row are never missing. -/
theorem reindexRowAt_isSome (df : List GRow) (g : String) (d : ℕ) :
    (reindexRowAt df g d).num.isSome ∧ (reindexRowAt df g d).den.isSome := by
  unfold reindexRowAt
  cases lookupRow df g d <;> exact ⟨rfl, rfl⟩

/-- Counting over a concatenation of blocks is the sum of the counts of
the blocks. -/
theorem countP_flatMap {α β : Type} (l : List α) (f : α → List β) (p : β → Bool) :
    (l.flatMap f).countP p = (l.map fun a => (f a).countP p).sum := by
  induction l with
  | nil => simp
  | cons a t ih => simp [List.flatMap_cons, List.countP_append, ih]

/-- Sum of a natural-valued map that is 1 at one element of a
duplicate-free list and 0 at every other element. -/
theorem sum_map_indicator {κ : Type} (K : List κ) (hK : K.Nodup) (g : κ) (hg : g ∈ K)
    (F : κ → ℕ) (h1 : F g = 1) (h0 : ∀ k ∈ K, k ≠ g → F k = 0) : (K.map F).sum = 1 := by
  induction K with
  | nil => simp at hg
  | cons k K ih =>
    rcases List.mem_cons.mp hg with hgk | hgK
    · subst hgk
      have hrest : ∀ x ∈ K.map F, x = 0 := by
        intro x hx
        rcases List.mem_map.mp hx with ⟨k2, hk2, hk2x⟩
        have hne : k2 ≠ g := fun hh => (List.nodup_cons.mp hK).1 (hh ▸ hk2)
        rw [← hk2x]
        exact h0 k2 (List.mem_cons_of_mem _ hk2) hne
      rw [List.map_cons, List.sum_cons, h1, List.sum_eq_zero hrest]
      rfl
    · have hkg : k ≠ g := by
        intro hh
        exact (List.nodup_cons.mp hK).1 (hh ▸ hgK)
      rw [List.map_cons, List.sum_cons, h0 k (by simp) hkg,
        ih (List.nodup_cons.mp hK).2 hgK fun k2 hk2 => h0 k2 (List.mem_cons_of_mem _ hk2)]

/-- C6: before the trailing-window computation, `geo_reindex` reindexes
against the full cross-product of the table's geo ids and the fit dates,
filling missing (geo, date) pairs with zero: the reindexed table has
exactly one row per (geo id, fit date) pair, every row's pair lies in that
product, no cell is missing, and a pair absent from the input becomes an
all-zero row. -/
theorem geo_reindex_fills_missing (df : List GRow) (fitDates : List ℕ)
    (hnd : fitDates.Nodup) :
    (∀ g ∈ uniqueGeoIds df, ∀ d ∈ fitDates,
      (reindexFill df fitDates).countP (fun r => decide (r.geo = g ∧ r.date = d)) = 1) ∧
    (∀ r ∈ reindexFill df fitDates,
      r.geo ∈ uniqueGeoIds df ∧ r.date ∈ fitDates ∧ r.num.isSome ∧ r.den.isSome) ∧
    (∀ g ∈ uniqueGeoIds df, ∀ d ∈ fitDates, lookupRow df g d = none →
      (⟨g, d, some 0, some 0⟩ : GRow) ∈ reindexFill df fitDates) := by
  refine ⟨?_, ?_, ?_⟩
  · intro g hg d hd
    rw [reindexFill, countP_flatMap]
    apply sum_map_indicator _ (List.nodup_dedup _) g hg
    · rw [List.countP_map]
      have hcong : ∀ d0 ∈ fitDates,
          ((fun r => decide (r.geo = g ∧ r.date = d)) ∘ fun d0 => reindexRowAt df g d0) d0 = true
            ↔ decide (d0 = d) = true := by
        intro d0 _
        simp [Function.comp_def, reindexRowAt_geo, reindexRowAt_date]
      rw [List.countP_congr hcong]
      have hcnt : (fitDates.countP fun d0 => decide (d0 = d)) = fitDates.count d := by
        apply List.countP_congr
        intro d0 _
        by_cases h : d0 = d <;> simp [h]
      rw [hcnt]
      exact List.count_eq_one_of_mem hnd hd
    · intro g2 _ hne
      rw [List.countP_map]
      apply List.countP_eq_zero.mpr
      intro d0 _
      intro hcontra
      have h2 := of_decide_eq_true hcontra
      exact hne ((reindexRowAt_geo df g2 d0).symm.trans h2.1)
  · intro r hr
    rcases List.mem_flatMap.mp hr with ⟨g, hg, hrg⟩
    rcases List.mem_map.mp hrg with ⟨d, hd, hdr⟩
    rw [← hdr]
    rw [reindexRowAt_geo, reindexRowAt_date]
    exact ⟨hg, hd, reindexRowAt_isSome df g d⟩
  · intro g hg d hd hnone
    apply List.mem_flatMap.mpr
    refine ⟨g, hg, List.mem_map.mpr ⟨d, hd, ?_⟩⟩
    rw [reindexRowAt, hnone]

/-- C6 witness: the reindex theorem applied to a concrete two-row table
(geo "01001" observed on date 0 with a NaN num cell, date 1 absent) over
the fit dates [0, 1]. -/
theorem geo_reindex_fills_missing_witness :
    (∀ g ∈ uniqueGeoIds [(⟨"01001", 0, none, some 7⟩ : GRow)], ∀ d ∈ [0, 1],
      (reindexFill [(⟨"01001", 0, none, some 7⟩ : GRow)] [0, 1]).countP
        (fun r => decide (r.geo = g ∧ r.date = d)) = 1) ∧
    (∀ r ∈ reindexFill [(⟨"01001", 0, none, some 7⟩ : GRow)] [0, 1],
      r.geo ∈ uniqueGeoIds [(⟨"01001", 0, none, some 7⟩ : GRow)] ∧ r.date ∈ [0, 1] ∧
        r.num.isSome ∧ r.den.isSome) ∧
    (∀ g ∈ uniqueGeoIds [(⟨"01001", 0, none, some 7⟩ : GRow)], ∀ d ∈ [0, 1],
      lookupRow [(⟨"01001", 0, none, some 7⟩ : GRow)] g d = none →
      (⟨g, d, some 0, some 0⟩ : GRow) ∈ reindexFill [(⟨"01001", 0, none, some 7⟩ : GRow)] [0, 1]) :=
  geo_reindex_fills_missing [⟨"01001", 0, none, some 7⟩] [0, 1] (by decide)

/-- C8 counterexample: `update_sensor` does not leave its caller-owned
input table unchanged - called on a table indexed by ["fips", "date"],
the in-place `reset_index` on line 219 of `update_sensor.py` leaves the
caller's table with its index moved into ordinary columns, so the table
after the call differs from the table before it. -/
theorem update_sensor_input_unchanged_cx :
    ¬ (updateSensorDataAfter ⟨["fips", "date"], []⟩ = (⟨["fips", "date"], []⟩ : InputTable)) := by
  intro h
  have : ([] : List String) = ["fips", "date"] := congrArg InputTable.index h
  simp at this

/-- C8 (amended): `update_sensor` mutates its caller-owned input in place
by resetting its index: after the call the input's row content is
unchanged and its index columns have been moved back into ordinary
columns (empty index), so an input with a nonempty index is not left
unchanged. -/
theorem update_sensor_mutates_input (t : InputTable) :
    (updateSensorDataAfter t).rows = t.rows ∧
    (updateSensorDataAfter t).index = [] ∧
    (t.index ≠ [] → updateSensorDataAfter t ≠ t) := by
  refine ⟨rfl, rfl, fun hne hcontra => ?_⟩
  exact hne (congrArg InputTable.index hcontra).symm

/-- C8 witness: the amended mutation theorem applied to the concrete
caller table indexed by ["fips", "date"] with no rows. -/
theorem update_sensor_mutates_input_witness :
    (updateSensorDataAfter ⟨["fips", "date"], []⟩).rows = ([] : List GRow) ∧
    (updateSensorDataAfter ⟨["fips", "date"], []⟩).index = [] ∧
    updateSensorDataAfter ⟨["fips", "date"], []⟩ ≠ (⟨["fips", "date"], []⟩ : InputTable) :=
  ⟨(update_sensor_mutates_input _).1, (update_sensor_mutates_input _).2.1,
    (update_sensor_mutates_input _).2.2 (by simp)⟩

/-- Pointwise-equal partial functions give equal filterMap results. -/
theorem filterMap_congr_mem {α β : Type} (l : List α) (g h : α → Option β)
    (hgh : ∀ a ∈ l, g a = h a) : l.filterMap g = l.filterMap h := by
  induction l with
  | nil => rfl
  | cons a t ih =>
    rw [List.filterMap_cons, List.filterMap_cons, hgh a (by simp),
      ih fun a2 ha2 => hgh a2 (by simp [ha2])]

/-- Collecting the optional i-th elements over the index range of a list
rebuilds the mapped list. -/
theorem filterMap_getElem_range {α β : Type} (f : β → α) (tasks : List β) :
    (List.range tasks.length).filterMap (fun i => (tasks[i]?).map f) = tasks.map f := by
  induction tasks with
  | nil => rfl
  | cons t ts ih =>
    rw [List.length_cons, List.range_succ_eq_map, List.filterMap_cons]
    rw [List.filterMap_map]
    have hcomp : ((fun i => ((t :: ts)[i]?).map f) ∘ Nat.succ) = fun i => (ts[i]?).map f := by
      funext i
      simp
    rw [hcomp, ih]
    simp

/-- Retrieval of the result recorded for a submitted task: whatever the
completion order, the log entry found for submission index i carries the
result of task i. -/
theorem poolLog_find_eq {α β : Type} (f : β → α) (tasks : List β) (sched : List ℕ)
    (hsub : ∀ j ∈ sched, j < tasks.length) (i : ℕ) (hi : i ∈ sched) :
    (poolLog f tasks sched).find? (fun p => decide (p.1 = i))
      = (tasks[i]?).map fun t => (i, f t) := by
  induction sched with
  | nil => simp at hi
  | cons j rest ih =>
    have hj : j < tasks.length := hsub j (by simp)
    have ht : tasks[j]? = some tasks[j] := List.getElem?_eq_getElem hj
    have hlog : poolLog f tasks (j :: rest) = (j, f tasks[j]) :: poolLog f tasks rest := by
      simp [poolLog, List.filterMap_cons, ht]
    rw [hlog]
    by_cases hij : j = i
    · subst hij
      rw [List.find?_cons_of_pos _ (by simp), ht]
      rfl
    · have hrest : i ∈ rest := by
        rcases List.mem_cons.mp hi with h | h
        · exact absurd h.symm hij
        · exact h
      rw [List.find?_cons_of_neg _ (by simp [hij])]
      exact ih (fun j2 hj2 => hsub j2 (by simp [hj2])) hrest

/-- Gathering pool results by submission order yields the sequential
result list, for every completion order that is a permutation of the task
indices. -/
theorem poolRun_eq_serialRun {α β : Type} (f : β → α) (tasks : List β) (sched : List ℕ)
    (hperm : sched.Perm (List.range tasks.length)) :
    poolRun f tasks sched = serialRun f tasks := by
  have hsub : ∀ j ∈ sched, j < tasks.length := fun j hj =>
    List.mem_range.mp (hperm.mem_iff.mp hj)
  have hmem : ∀ i ∈ List.range tasks.length, i ∈ sched := fun i hi =>
    hperm.mem_iff.mpr hi
  rw [poolRun, gatherResults, serialRun]
  rw [filterMap_congr_mem _ _ (fun i => (tasks[i]?).map f) ?_]
  · exact filterMap_getElem_range f tasks
  · intro i hi
    rw [poolLog_find_eq f tasks sched hsub i (hmem i hi)]
    cases h : tasks[i]? <;> simp [h]

/-- C9: running update_sensor with parallel=True produces exactly the same
output rows as running it with parallel=False: per-geography results are
gathered in submission order of the geography groups, so the output does
not depend on the workers' completion order `sched`. -/
theorem update_sensor_parallel_deterministic {α : Type} (fit : String × List GRow → List α)
    (df : List GRow) (sched : List ℕ)
    (hperm : sched.Perm (List.range (groupByGeo df).length)) :
    updateSensorParallel fit df sched = updateSensorSerial fit df := by
  rw [updateSensorParallel, updateSensorSerial, poolRun_eq_serialRun _ _ _ hperm]

/-- C9 witness: the determinism theorem applied to a concrete two-county
table with the workers finishing in reverse submission order. -/
theorem update_sensor_parallel_deterministic_witness :
    updateSensorParallel (fun g => [g.2.length])
        [(⟨"42003", 0, some 1, some 2⟩ : GRow), ⟨"01001", 1, none, none⟩] [1, 0]
      = updateSensorSerial (fun g => [g.2.length])
        [(⟨"42003", 0, some 1, some 2⟩ : GRow), ⟨"01001", 1, none, none⟩] :=
  update_sensor_parallel_deterministic _ _ _ (by simp +decide [groupByGeo, uniqueGeoIds])

/-- C10: called with a geography string outside
{county, state, msa, hrr, nation, hhs}, `geo_reindex` returns the boolean
value False (modelled as `invalidGeo`) rather than raising or returning a
table; for every recognized geography whose converted table passes the
internal sanity bound it returns a dataframe. -/
theorem geo_reindex_invalid_geo (gm : GeoMapperModel) (geo : String) (minDen : ℚ) (w : ℕ)
    (data : List GRow) (fitDates : List ℕ) :
    (geo ∉ validGeos →
      geoReindex gm geo minDen w data fitDates = GeoReindexResult.invalidGeo) ∧
    (geo ∈ validGeos →
      (uniqueGeoIds (convertGeo gm geo minDen w data)).length * fitDates.length ≤
        (gm.geoValues geo).length * fitDates.length →
      geoReindex gm geo minDen w data fitDates
        = GeoReindexResult.frame (reindexFill (convertGeo gm geo minDen w data) fitDates)) := by
  constructor
  · intro h
    rw [geoReindex, if_neg h]
  · intro h hb
    rw [geoReindex, if_pos h]
    exact if_pos hb

/-- C10 witness: with an empty reference model, the dispatch theorem
applied to the unrecognized geography "galaxy" (returning `invalidGeo`)
and to the recognized geography "state" on a concrete one-row table
(returning a dataframe). -/
theorem geo_reindex_invalid_geo_witness :
    geoReindex ⟨fun _ => [], fun _ => []⟩ "galaxy" 1 2
        [(⟨"01001", 0, some 1, some 2⟩ : GRow)] [0] = GeoReindexResult.invalidGeo ∧
    geoReindex ⟨fun _ => [], fun _ => []⟩ "state" 1 2
        [(⟨"01001", 0, some 1, some 2⟩ : GRow)] [0]
      = GeoReindexResult.frame (reindexFill
          (convertGeo ⟨fun _ => [], fun _ => []⟩ "state" 1 2
            [(⟨"01001", 0, some 1, some 2⟩ : GRow)]) [0]) :=
  ⟨(geo_reindex_invalid_geo ⟨fun _ => [], fun _ => []⟩ "galaxy" 1 2
      [⟨"01001", 0, some 1, some 2⟩] [0]).1 (by simp +decide [validGeos]),
   (geo_reindex_invalid_geo ⟨fun _ => [], fun _ => []⟩ "state" 1 2
      [⟨"01001", 0, some 1, some 2⟩] [0]).2 (by simp +decide [validGeos])
      (by simp +decide [convertGeo, replaceGeocodeModel, resolve, uniqueGeoIds])⟩
